import Mathlib

/-!
Verification of the supyx `wxnavimgation` package (hint overlay and modal
input dispatcher) against its natural-language specification.

The definitions below are a shallow embedding of `src/supyx/wxnavimgation/hints.py`
and `src/supyx/wxnavimgation/modes.py`.  Pure functions are translated as Lean
functions; methods with widget-tree side effects are translated as explicit
state-passing functions whose extra result fields record the externally visible
effects (mode changes requested on the parent frame, widget activations, the
boolean value returned to the event loop).  Python string indexing that can
raise IndexError is translated as `List.get?` returning `Option`.
-/

namespace Supyx

/-- The three values of the `VimMode` enum in `modes.py`. -/
inductive VimMode where
  | DEFAULT
  | HINT
  | SEARCH
deriving DecidableEq, Repr

/-- A hintable target, as collected by `HintOverlay._find_widgets`: either a
plain widget or a `(ListCtrl, item_index)` tuple.  Widgets are identified by
an abstract numeric identity. -/
inductive Target where
  | widget (id : Nat)
  | item (id : Nat) (index : Nat)
deriving DecidableEq, Repr

/-- One entry of `HintOverlay.hints`: the dict `{"widget": ..., "hint": ...}`. -/
structure Hint where
  widget : Target
  hint : List Char
deriving DecidableEq, Repr

/-- The mutable state of a `HintOverlay` instance: `self.hints`,
`self.hint_windows` (each window reduced to its visibility flag; creation
order parallels `self.hints`), and `self.current_input`. -/
structure OverlayState where
  hints : List Hint
  hintWindows : List Bool
  current_input : List Char
deriving DecidableEq, Repr

/-- `HINT_CHARACTERS = "asdfgqwertzxcvb"` from `hints.py`. -/
def hintChars : List Char :=
  ['a', 's', 'd', 'f', 'g', 'q', 'w', 'e', 'r', 't', 'z', 'x', 'c', 'v', 'b']

/-- Python `s.startswith(p)` on strings modelled as `List Char`:
`startsWith s p = true` iff `p` is an initial segment of `s`. -/
def startsWith : List Char → List Char → Bool
  | _, [] => true
  | [], _ :: _ => false
  | a :: s, b :: p => a == b && startsWith s p

/-- `HintOverlay._generate_hint_string(index)`.  `chars[i]` is `List.get?`,
so an index past the end of the 15-character alphabet (Python IndexError)
yields `none`.  The local variables `first_idx`, `second_idx`, `third_idx`
and the reassigned `first_idx` of the source are inlined. -/
def generateHintString (index : Nat) : Option (List Char) :=
  if index < hintChars.length then
    (hintChars.get? index).map (fun c => [c])
  else if (index - hintChars.length) / hintChars.length < hintChars.length then
    match hintChars.get? ((index - hintChars.length) / hintChars.length),
          hintChars.get? ((index - hintChars.length) % hintChars.length) with
    | some a, some b => some [a, b]
    | _, _ => none
  else
    match hintChars.get? ((index - hintChars.length) / hintChars.length / hintChars.length),
          hintChars.get? ((index - hintChars.length) / hintChars.length % hintChars.length),
          hintChars.get? ((index - hintChars.length) % hintChars.length) with
    | some a, some c, some b => some [a, c, b]
    | _, _, _ => none

/-- The keycode-to-character conversion at the top of
`HintOverlay.handle_key`: `97 <= keycode <= 122` gives the character itself,
`65 <= keycode <= 90` gives the lowercased character, anything else `None`. -/
def keycodeToChar (keycode : Nat) : Option Char :=
  if 97 ≤ keycode ∧ keycode ≤ 122 then some (Char.ofNat keycode)
  else if 65 ≤ keycode ∧ keycode ≤ 90 then some (Char.ofNat (keycode + 32))
  else none

/-- `HintOverlay.hide` (which calls `_clear_hints`): destroys all hint
windows, empties `hints` and resets `current_input`. -/
def hide (_st : OverlayState) : OverlayState :=
  { hints := [], hintWindows := [], current_input := [] }

/-- `HintOverlay._update_hint_visibility`: window `i` is shown iff
`hints[i].hint` starts with the current input; windows beyond the hint list
(resp. hints beyond the window list) are left untouched (ignored). -/
def updateHintVisibility (hints : List Hint) (input : List Char) : List Bool → List Bool
  | [] => []
  | w :: ws =>
    match hints with
    | [] => w :: ws
    | h :: hs => startsWith h.hint input :: updateHintVisibility hs input ws

/-- The externally visible effects of one `HintOverlay.handle_key` call:
the overlay state afterwards, the argument of the `self.parent.set_vim_mode`
call if one was made, the widget passed to `_activate_widget` if any, and the
boolean the method returns to `_on_char_hook`. -/
structure HandleEffects where
  state : OverlayState
  modeSet : Option VimMode
  activated : Option Target
  returned : Bool
deriving DecidableEq, Repr

/-- The part of `HintOverlay.handle_key` below the character checks, for a
character `c` of the hint alphabet: append `c` to `current_input`, filter
the hints whose label starts with the new input (`matching_hints`), activate
the first exact match if any, otherwise tear down when nothing matches, else
update the window visibility.  The local variables `char` and
`matching_hints` of the source are inlined. -/
def handleChar (st : OverlayState) (c : Char) : HandleEffects :=
  match (st.hints.filter (fun h => startsWith h.hint (st.current_input ++ [c]))).find?
      (fun h => h.hint == st.current_input ++ [c]) with
  | some h0 => ⟨hide st, some VimMode.DEFAULT, some h0.widget, true⟩
  | none =>
    if (st.hints.filter (fun h => startsWith h.hint (st.current_input ++ [c]))).isEmpty then
      ⟨hide st, some VimMode.DEFAULT, none, true⟩
    else
      ⟨⟨st.hints,
        updateHintVisibility st.hints (st.current_input ++ [c]) st.hintWindows,
        st.current_input ++ [c]⟩, none, none, true⟩

/-- `HintOverlay.handle_key(keycode)`, with `wx.WXK_ESCAPE = 27`. -/
def handleKey (st : OverlayState) (keycode : Nat) : HandleEffects :=
  if keycode = 27 then
    ⟨hide st, some VimMode.DEFAULT, none, true⟩
  else
    match keycodeToChar keycode with
    | none => ⟨hide st, some VimMode.DEFAULT, none, true⟩
    | some c =>
      if hintChars.contains c then handleChar st c
      else ⟨hide st, some VimMode.DEFAULT, none, true⟩

/-- The loop body of `HintOverlay.show`: label targets `widgets[i]` with
`_generate_hint_string(i)` starting at index `i0`, collecting the `hints`
list; a label generation failure (IndexError) aborts the whole call. -/
def buildHints : List Target → Nat → Option (List Hint)
  | [], _ => some []
  | w :: ws, i =>
    match generateHintString i, buildHints ws (i + 1) with
    | some l, some hs => some (⟨w, l⟩ :: hs)
    | _, _ => none

/-- The externally visible effects of one `HintOverlay.show` call. -/
structure ShowEffects where
  state : OverlayState
  modeSet : Option VimMode
deriving DecidableEq, Repr

/-- `HintOverlay.show(hint_type)` with the collector result passed in as
`widgets` (the widget tree lives outside the overlay; `_find_widgets` is
embedded separately as `findWidgets`).  `_clear_hints()` empties `hints` and
`hint_windows` but, unlike `hide`, leaves `current_input` untouched; with no
widgets the method reverts the parent to DEFAULT mode; otherwise it creates
one (visible) hint window and one hint entry per widget. -/
def showOverlay (st : OverlayState) (widgets : List Target) : Option ShowEffects :=
  if widgets.isEmpty then
    some ⟨⟨[], [], st.current_input⟩, some VimMode.DEFAULT⟩
  else
    (buildHints widgets 0).map
      (fun hs => ⟨⟨hs, hs.map (fun _ => true), st.current_input⟩, none⟩)

/-- The hint-system state of a frame mixing in `VimNavigationMixin`
(`modes.py`): the current `vim_mode`, the hint overlay, and the search
overlay.  The search overlay class (`search.py`) is not part of the sources
under verification; modelled from the spec, its transient UI is reduced to
one flag that `SearchOverlay.hide()` clears. -/
structure SearchState where
  active : Bool
deriving DecidableEq, Repr

/-- Modelled from the spec: `SearchOverlay.hide()` (the class lives in
`search.py`, which is not among the given sources) tears down the search
UI's transient state. -/
def searchHide (_st : SearchState) : SearchState :=
  { active := false }

/-- The fields of `VimNavigationMixin` relevant to mode transitions. -/
structure SysState where
  vim_mode : VimMode
  hint_overlay : OverlayState
  search_overlay : SearchState
deriving DecidableEq, Repr

/-- `VimNavigationMixin.set_vim_mode(mode)`: store the mode, then hide the
hint overlay when the new mode is not HINT and the search overlay when the
new mode is not SEARCH (the status-bar update has no modelled state). -/
def setVimMode (st : SysState) (mode : VimMode) : SysState :=
  let st1 : SysState := ⟨mode, st.hint_overlay, st.search_overlay⟩
  let st2 : SysState :=
    if mode ≠ VimMode.HINT then ⟨st1.vim_mode, hide st1.hint_overlay, st1.search_overlay⟩
    else st1
  if mode ≠ VimMode.SEARCH then ⟨st2.vim_mode, st2.hint_overlay, searchHide st2.search_overlay⟩
  else st2

/-- Python `chr(keycode).lower()` for the ASCII range handled by
`_get_key_string`: A-Z maps to the character 32 code points later, anything
else is unchanged. -/
def lowerChar (c : Char) : Char :=
  if 65 ≤ c.toNat ∧ c.toNat ≤ 90 then Char.ofNat (c.toNat + 32) else c

/-- `VimNavigationMixin._get_key_string(event)`, as a function of the key
code, with `wx.WXK_ESCAPE = 27`, `wx.WXK_RETURN = 13`, `wx.WXK_TAB = 9`,
`wx.WXK_SPACE = 32` and `ord(chr(47)) = 47` for the slash key. -/
def getKeyString (keycode : Nat) : String :=
  if keycode = 27 then "Escape"
  else if keycode = 13 then "Return"
  else if keycode = 9 then "Tab"
  else if keycode = 32 then "Space"
  else if keycode = 47 then "/"
  else if 32 ≤ keycode ∧ keycode ≤ 126 then String.mk [lowerChar (Char.ofNat keycode)]
  else ""

/-- The branch taken by one `VimNavigationMixin._on_char_hook` call, naming
the handler invoked (or `skip` for `event.Skip()`, the unconsumed case). -/
inductive HookAction where
  | hintCancel
  | searchCancel
  | defocusInput
  | hintDelegated
  | searchDelegated
  | showInputHints
  | showAllHints
  | enterSearchMode
  | customBinding
  | skip
deriving DecidableEq, Repr

/-- `VimNavigationMixin._on_char_hook(event)` as a function of the mode,
whether the focused widget is a text-entry control, the key code, and the
application-supplied keybinding table.  The table (`KeyBindingManager`, in
`keybindings.py`, not among the given sources) is modelled from the spec as
a map from key strings to whether the application handled the key.  In HINT
mode `handle_key` always returns `True` (see `handleKey`), so the hook
always consumes the event there (`hintDelegated`); SEARCH-mode delegation is
left abstract (`searchDelegated`). -/
def onCharHook (mode : VimMode) (isInput : Bool) (bindings : String → Bool)
    (keycode : Nat) : HookAction :=
  if keycode = 27 then
    match mode with
    | VimMode.HINT => HookAction.hintCancel
    | VimMode.SEARCH => HookAction.searchCancel
    | VimMode.DEFAULT => if isInput then HookAction.defocusInput else HookAction.skip
  else if mode = VimMode.HINT then HookAction.hintDelegated
  else if mode = VimMode.SEARCH then HookAction.searchDelegated
  else if isInput then HookAction.skip
  else
    if getKeyString keycode = "i" then HookAction.showInputHints
    else if getKeyString keycode = "f" then HookAction.showAllHints
    else if getKeyString keycode = "/" then HookAction.enterSearchMode
    else if bindings (getKeyString keycode) then HookAction.customBinding
    else HookAction.skip

/-- The wx widget classes distinguished by `HintOverlay._find_widgets` and a
catch-all `other` for every other class (frames, panels, static text, ...).
A `listCtrl` carries its `GetItemCount()`. -/
inductive WKind where
  | textCtrl
  | comboBox
  | searchCtrl
  | listCtrl (itemCount : Nat)
  | button
  | bitmapButton
  | toggleButton
  | checkBox
  | radioButton
  | choice
  | other
deriving DecidableEq, Repr

/-- A node of the widget tree: identity, class, `IsShown()`, `IsEnabled()`,
children in `GetChildren()` order. -/
inductive Widget where
  | node (id : Nat) (kind : WKind) (shown : Bool) (enabled : Bool)
      (children : List Widget)

/-- The two hint types accepted by `HintOverlay.show`. -/
inductive HintType where
  | input
  | all
deriving DecidableEq, Repr

/-- The targets the body of `traverse` appends for one widget itself (before
recursing into its children): in `input` mode the text-entry classes; in
`all` mode one `(ListCtrl, i)` tuple per row of a list control, and the
widget itself for the clickable classes. -/
def ownTargets (ht : HintType) (id : Nat) (kind : WKind) : List Target :=
  match ht with
  | HintType.input =>
    match kind with
    | WKind.textCtrl | WKind.comboBox | WKind.searchCtrl => [Target.widget id]
    | _ => []
  | HintType.all =>
    match kind with
    | WKind.listCtrl count => (List.range count).map (fun i => Target.item id i)
    | WKind.button | WKind.bitmapButton | WKind.toggleButton
    | WKind.checkBox | WKind.radioButton
    | WKind.choice | WKind.comboBox
    | WKind.textCtrl | WKind.searchCtrl => [Target.widget id]
    | _ => []

mutual

/-- `HintOverlay._find_widgets`: the inner `traverse` function.  A widget
that is not shown or not enabled is pruned with its whole subtree; otherwise
its own targets are appended and then its children are traversed in order. -/
def findWidgets (ht : HintType) : Widget → List Target
  | Widget.node id kind shown enabled children =>
    if shown && enabled then
      ownTargets ht id kind ++ findWidgetsAll ht children
    else []

/-- `traverse` applied to each child in `GetChildren()` order. -/
def findWidgetsAll (ht : HintType) : List Widget → List Target
  | [] => []
  | w :: ws => findWidgets ht w ++ findWidgetsAll ht ws

end

/-- The three-character labels the spec describes as the "plain lexicographic
base-n expansion": the label for `index` spells the base-15 digits of
`index - 15`, most significant first. -/
def lexThreeLabel (index : Nat) : Option (List Char) :=
  match hintChars.get? ((index - hintChars.length) / (hintChars.length * hintChars.length)),
        hintChars.get? ((index - hintChars.length) / hintChars.length % hintChars.length),
        hintChars.get? ((index - hintChars.length) % hintChars.length) with
  | some a, some b, some c => some [a, b, c]
  | _, _, _ => none

/-- The three-character labels following the claim literally: with a, b, c
the successive (most-significant-first) base-15 digits of `index - 15`, the
label is `alphabet[a] + alphabet[c] + alphabet[b]` — a genuinely
non-lexicographic digit order. -/
def claimDigitSwapLabel (index : Nat) : Option (List Char) :=
  match hintChars.get? ((index - hintChars.length) / (hintChars.length * hintChars.length)),
        hintChars.get? ((index - hintChars.length) % hintChars.length),
        hintChars.get? ((index - hintChars.length) / hintChars.length % hintChars.length) with
  | some a, some c, some b => some [a, c, b]
  | _, _, _ => none

theorem hintChars_length : hintChars.length = 15 := rfl

/-- The label generator succeeds (no IndexError) below index 3390. -/
theorem generateHintString_isSome {index : Nat} (h : index < 3390) :
    (generateHintString index).isSome = true := by
  unfold generateHintString
  rcases Nat.lt_or_ge index hintChars.length with h1 | h1
  · rw [if_pos h1, List.get?_eq_get h1]
    rfl
  · rw [if_neg (Nat.not_lt.mpr h1)]
    by_cases h2 : (index - hintChars.length) / hintChars.length < hintChars.length
    · rw [if_pos h2, List.get?_eq_get h2,
        List.get?_eq_get (Nat.mod_lt _ (show 0 < hintChars.length by decide))]
      rfl
    · rw [if_neg h2]
      have hx : index - hintChars.length < 15 * 225 := by
        rw [hintChars_length]
        omega
      have hq : (index - hintChars.length) / hintChars.length < 15 * 15 := by
        rw [hintChars_length]
        exact Nat.lt_of_lt_of_le (Nat.div_lt_of_lt_mul hx) (by omega)
      have hqq : (index - hintChars.length) / hintChars.length / hintChars.length <
          hintChars.length := by
        rw [hintChars_length]
        exact Nat.div_lt_of_lt_mul hq
      rw [List.get?_eq_get hqq,
        List.get?_eq_get (Nat.mod_lt ((index - hintChars.length) / hintChars.length)
          (show 0 < hintChars.length by decide)),
        List.get?_eq_get (Nat.mod_lt (index - hintChars.length)
          (show 0 < hintChars.length by decide))]
      rfl

theorem startsWith_self (l : List Char) : startsWith l l = true := by
  induction l with
  | nil => rfl
  | cons a t ih => simp [startsWith, ih]

/-- Searching the filtered `matching_hints` for an exact label match finds
the same hint as searching the full hint list, because an exact match always
survives the starts-with filter. -/
theorem find_exact_filter (buf : List Char) (l : List Hint) :
    (l.filter (fun h => startsWith h.hint buf)).find? (fun h => h.hint == buf) =
      l.find? (fun h => h.hint == buf) := by
  induction l with
  | nil => rfl
  | cons h t ih =>
    by_cases hs : startsWith h.hint buf = true
    · rw [show List.filter (fun x => startsWith x.hint buf) (h :: t) =
          h :: List.filter (fun x => startsWith x.hint buf) t by
        simp [List.filter_cons, hs]]
      by_cases he : (h.hint == buf) = true
      · rw [@List.find?_cons_of_pos _ (fun x => x.hint == buf) h
            (List.filter (fun x => startsWith x.hint buf) t) he,
          @List.find?_cons_of_pos _ (fun x => x.hint == buf) h t he]
      · rw [@List.find?_cons_of_neg _ (fun x => x.hint == buf) h
            (List.filter (fun x => startsWith x.hint buf) t) he,
          @List.find?_cons_of_neg _ (fun x => x.hint == buf) h t he, ih]
    · rw [show List.filter (fun x => startsWith x.hint buf) (h :: t) =
          List.filter (fun x => startsWith x.hint buf) t by
        simp [List.filter_cons, hs]]
      have he : ¬((h.hint == buf) = true) := by
        intro hb
        exact hs (by rw [beq_iff_eq.mp hb]; exact startsWith_self buf)
      rw [@List.find?_cons_of_neg _ (fun x => x.hint == buf) h t he, ih]

/-- With as many hint windows as hints (invariant I4), the visibility update
shows exactly the windows of the hints whose label starts with the input. -/
theorem updateHintVisibility_eq_map (input : List Char) :
    ∀ (hints : List Hint) (ws : List Bool), ws.length = hints.length →
      updateHintVisibility hints input ws =
        hints.map (fun h => startsWith h.hint input) := by
  intro hints
  induction hints with
  | nil =>
    intro ws hw
    cases ws with
    | nil => rfl
    | cons w ws => simp at hw
  | cons h t ih =>
    intro ws hw
    cases ws with
    | nil => simp at hw
    | cons w ws =>
      simp only [updateHintVisibility, List.map_cons]
      rw [ih ws (by simpa using hw)]

/-- The `show` loop succeeds and produces one hint per target whenever all
indices stay below the generator's IndexError threshold. -/
theorem buildHints_total (ws : List Target) :
    ∀ i : Nat, i + ws.length ≤ 3390 →
      ∃ hs : List Hint, buildHints ws i = some hs ∧ hs.length = ws.length := by
  induction ws with
  | nil => exact fun i _ => ⟨[], rfl, rfl⟩
  | cons w t ih =>
    intro i h
    rw [List.length_cons] at h
    obtain ⟨l, hl⟩ := Option.isSome_iff_exists.mp
      (generateHintString_isSome (show i < 3390 by omega))
    obtain ⟨hs, hhs, hlen⟩ := ih (i + 1) (by omega)
    exact ⟨⟨w, l⟩ :: hs, by simp [buildHints, hl, hhs], by simp [hlen]⟩

/-- A key code that maps to a character of the hint alphabet reaches the
matching part of `handle_key`. -/
theorem handleKey_valid_char (st : OverlayState) (keycode : Nat) (c : Char)
    (h27 : keycode ≠ 27) (hchar : keycodeToChar keycode = some c)
    (hmem : hintChars.contains c = true) :
    handleKey st keycode = handleChar st c := by
  unfold handleKey
  rw [if_neg h27, hchar]
  simp [hmem]
  intro hmm
  exact absurd (List.mem_of_elem_eq_true hmem) hmm

/-- A key code of 27 would contradict a successful character conversion. -/
theorem keycodeToChar_ne_escape {keycode : Nat} {c : Char}
    (hchar : keycodeToChar keycode = some c) : keycode ≠ 27 := by
  intro h
  rw [h] at hchar
  exact Option.noConfusion hchar

/-- C1: the claim states that for every session size k from 1 to 1000 the
label set for indices 0..k-1 is prefix-free.  Evaluating the generator at
the failing session size k = 16 shows it is not: index 0 yields the label
"a" and index 15 yields "aa", and "a" is a proper prefix of "aa".  (Because
`handle_key` activates an exact match first, the hint labelled "aa" can then
never be selected.) -/
theorem c1_sixteen_label_set_not_pre_free :
    generateHintString 0 = some ['a'] ∧
    generateHintString 15 = some ['a', 'a'] ∧
    startsWith ['a', 'a'] ['a'] = true ∧
    (['a'] : List Char) ≠ ['a', 'a'] := by decide

/-- C2 counterexample: the generator is not total — at index 3390 the
three-character branch computes the alphabet index 225 / 15 = 15, one past
the end of the 15-character alphabet, and the Python code raises IndexError
(`none` in this embedding). -/
theorem c2_counterexample_index_3390 : generateHintString 3390 = none := by decide

/-- C2 amended: the generator is total, with every computed alphabet index
in bounds, for every index below 3390; at 3390 and above the three-character
branch indexes past the end of the alphabet. -/
theorem c2_generator_total_below_3390 (index : Nat) (h : index < 3390) :
    (generateHintString index).isSome = true :=
  generateHintString_isSome h

/-- C2 witness: the amended totality theorem at the concrete index 241. -/
theorem c2_total_witness : 241 < 3390 ∧ (generateHintString 241).isSome = true :=
  ⟨by decide, c2_generator_total_below_3390 241 (by decide)⟩

/-- C7 counterexample: the claim describes the three-character label as
`alphabet[a] + alphabet[c] + alphabet[b]` for the successive
(most-significant-first) digits a, b, c of the base-15 derivation and calls
this a non-lexicographic order.  At index 241 (digits of 241 - 15 = 226:
a = 1, b = 0, c = 1) such a digit-swapped label would be "ssa", but the
code produces "sas", the plain lexicographic expansion. -/
theorem c7_counterexample_index_241 :
    generateHintString 241 = some ['s', 'a', 's'] ∧
    claimDigitSwapLabel 241 = some ['s', 's', 'a'] ∧
    generateHintString 241 ≠ claimDigitSwapLabel 241 := by decide

/-- C7 amended: in the three-character branch (every index from 240 up) the
label is `alphabet[first] + alphabet[third] + alphabet[second]` for the
code's final `first_idx`, `third_idx`, `second_idx`, and these are exactly
the most-significant-first base-15 digits of index - 15: the composition is
the plain lexicographic base-n expansion, not a non-lexicographic order. -/
theorem c7_three_char_labels_lexicographic (index : Nat) (h : 240 ≤ index) :
    generateHintString index = lexThreeLabel index := by
  unfold generateHintString lexThreeLabel
  have h1 : ¬index < hintChars.length := by
    rw [hintChars_length]
    omega
  have h2 : ¬(index - hintChars.length) / hintChars.length < hintChars.length := by
    rw [hintChars_length]
    intro hc
    have h15 : (15 : Nat) ≤ (index - 15) / 15 :=
      (Nat.le_div_iff_mul_le (by omega)).mpr (by omega)
    omega
  rw [if_neg h1, if_neg h2, Nat.div_div_eq_div_mul]

/-- C7 witness: the amended lexicographic-composition theorem at the
concrete index 241. -/
theorem c7_lex_witness : 240 ≤ 241 ∧ generateHintString 241 = lexThreeLabel 241 :=
  ⟨by decide, c7_three_char_labels_lexicographic 241 (by decide)⟩

/-- C4 counterexample: `handle_key` reports no outcome to its caller — a
call that tears the session down (key 'a' with the single hint "s": a
no-match) returns the same bare `True` as a call that stays active (key 'a'
with the single hint "as"), so the return value does not say which of
{cancelled, activated, no-match} occurred. -/
theorem c4_counterexample_bare_true :
    (handleKey ⟨[⟨Target.widget 1, ['s']⟩], [true], []⟩ 97).state.hints = [] ∧
    (handleKey ⟨[⟨Target.widget 1, ['s']⟩], [true], []⟩ 97).returned = true ∧
    (handleKey ⟨[⟨Target.widget 1, ['a', 's']⟩], [true], []⟩ 97).state.hints ≠ [] ∧
    (handleKey ⟨[⟨Target.widget 1, ['a', 's']⟩], [true], []⟩ 97).returned = true := by
  decide

/-- C4 amended: `handle_key` returns the bare value `True` on every call;
a call that does not leave the session active does not report its outcome
through the return value — instead the method itself reverts the dispatcher
to DEFAULT mode (calls `set_vim_mode`) as a side effect, and a call that
stays active makes no mode call and keeps the hint list. -/
theorem c4_handle_key_returns_true_and_reverts (st : OverlayState) (keycode : Nat) :
    (handleKey st keycode).returned = true ∧
    ((handleKey st keycode).modeSet = some VimMode.DEFAULT ∧
        (handleKey st keycode).state = hide st ∨
      (handleKey st keycode).modeSet = none ∧
        (handleKey st keycode).state.hints = st.hints) := by
  unfold handleKey handleChar
  split
  · exact ⟨rfl, Or.inl ⟨rfl, rfl⟩⟩
  · split
    · exact ⟨rfl, Or.inl ⟨rfl, rfl⟩⟩
    · split
      · split
        · exact ⟨rfl, Or.inl ⟨rfl, rfl⟩⟩
        · split
          · exact ⟨rfl, Or.inl ⟨rfl, rfl⟩⟩
          · exact ⟨rfl, Or.inr ⟨rfl, rfl⟩⟩
      · exact ⟨rfl, Or.inl ⟨rfl, rfl⟩⟩

/-- C5: while a session is active, a keystroke that is not the cancel key
and does not map to a character of the hint alphabet (an out-of-range key
code or a letter outside the 15 hint characters) tears the session down,
reverts the parent to DEFAULT mode, and is consumed (returns True). -/
theorem c5_out_of_alphabet_teardown (st : OverlayState) (keycode : Nat)
    (h27 : keycode ≠ 27)
    (hmap : ∀ c : Char, keycodeToChar keycode = some c → hintChars.contains c = false) :
    handleKey st keycode = ⟨hide st, some VimMode.DEFAULT, none, true⟩ := by
  unfold handleKey
  rw [if_neg h27]
  cases hk : keycodeToChar keycode with
  | none => rfl
  | some c =>
    show (if hintChars.contains c = true then handleChar st c
        else ⟨hide st, some VimMode.DEFAULT, none, true⟩) =
      ⟨hide st, some VimMode.DEFAULT, none, true⟩
    rw [hmap c hk]
    rfl

/-- C5 witness: the out-of-alphabet teardown theorem at the concrete key
code 104 (letter 'h', which is not among the 15 hint characters). -/
theorem c5_teardown_witness :
    (104 : Nat) ≠ 27 ∧
    handleKey ⟨[⟨Target.widget 1, ['a']⟩], [true], []⟩ 104 =
      ⟨hide ⟨[⟨Target.widget 1, ['a']⟩], [true], []⟩, some VimMode.DEFAULT, none, true⟩ :=
  ⟨by decide, c5_out_of_alphabet_teardown _ 104 (by decide)
    (fun c hc => by
      have h104 : keycodeToChar 104 = some 'h' := by decide
      rw [h104] at hc
      rw [← Option.some_inj.mp hc]
      decide)⟩

/-- C8: `set_vim_mode` stores exactly one of the three modes and always
tears down the transient overlay state of every mode other than the new
one: leaving for DEFAULT hides both overlays, entering HINT hides the
search UI, entering SEARCH hides the hint session.  (Every mode transition
in the sources goes through `set_vim_mode`.) -/
theorem c8_set_mode_exclusive_teardown (st : SysState) (m : VimMode) :
    (setVimMode st m).vim_mode = m ∧
    (m = VimMode.DEFAULT ∨ m = VimMode.HINT ∨ m = VimMode.SEARCH) ∧
    (setVimMode st VimMode.DEFAULT).hint_overlay = hide st.hint_overlay ∧
    (setVimMode st VimMode.DEFAULT).search_overlay = searchHide st.search_overlay ∧
    (setVimMode st VimMode.HINT).search_overlay = searchHide st.search_overlay ∧
    (setVimMode st VimMode.SEARCH).hint_overlay = hide st.hint_overlay := by
  cases m <;> simp [setVimMode, hide, searchHide]

/-- C9: in 'all' hint mode a shown, enabled list control with R rows
contributes exactly the R row targets (list control identity, row index),
one per row index in order, followed by whatever its children contribute —
and no whole-widget target for the list control itself. -/
theorem c9_list_ctrl_row_expansion (id r : Nat) (cs : List Widget) :
    findWidgets HintType.all (Widget.node id (WKind.listCtrl r) true true cs) =
      (List.range r).map (fun i => Target.item id i) ++ findWidgetsAll HintType.all cs ∧
    ((List.range r).map (fun i => Target.item id i)).length = r ∧
    Target.widget id ∉ (List.range r).map (fun i => Target.item id i) := by
  refine ⟨by simp [findWidgets, ownTargets], by simp, ?_⟩
  simp

/-- C3: while a session is active (hint windows parallel the hints,
invariant I4), a key that maps to a character of the hint alphabet appends
it to the input buffer and then: if the new buffer equals some hint's label,
the first such hint's target is activated and the session is torn down with
the mode reverted to DEFAULT; if instead no hint's label starts with the
buffer, the session is torn down (no-match) with no activation; otherwise
the session stays active (no mode call), the hints are kept, the buffer is
the appended one, and exactly the windows of the hints whose label starts
with the buffer are visible. -/
theorem c3_active_key_narrowing (st : OverlayState) (keycode : Nat) (c : Char)
    (hwin : st.hintWindows.length = st.hints.length)
    (hchar : keycodeToChar keycode = some c)
    (hmem : hintChars.contains c = true) :
    ((∃ h0 ∈ st.hints, h0.hint = st.current_input ++ [c]) →
      (handleKey st keycode).activated =
          (st.hints.find? (fun h => h.hint == st.current_input ++ [c])).map Hint.widget ∧
        (handleKey st keycode).state = hide st ∧
        (handleKey st keycode).modeSet = some VimMode.DEFAULT) ∧
    ((∀ h0 ∈ st.hints, h0.hint ≠ st.current_input ++ [c]) →
      ((∀ h0 ∈ st.hints, startsWith h0.hint (st.current_input ++ [c]) = false) →
        (handleKey st keycode).state = hide st ∧
        (handleKey st keycode).modeSet = some VimMode.DEFAULT ∧
        (handleKey st keycode).activated = none) ∧
      ((∃ h0 ∈ st.hints, startsWith h0.hint (st.current_input ++ [c]) = true) →
        (handleKey st keycode).modeSet = none ∧
        (handleKey st keycode).activated = none ∧
        (handleKey st keycode).state.hints = st.hints ∧
        (handleKey st keycode).state.current_input = st.current_input ++ [c] ∧
        (handleKey st keycode).state.hintWindows =
          st.hints.map (fun h => startsWith h.hint (st.current_input ++ [c])))) := by
  rw [handleKey_valid_char st keycode c (keycodeToChar_ne_escape hchar) hchar hmem]
  unfold handleChar
  rw [find_exact_filter]
  cases hfind : st.hints.find? (fun h => h.hint == st.current_input ++ [c]) with
  | some h1 =>
    constructor
    · intro _
      exact ⟨rfl, rfl, rfl⟩
    · intro hnone
      have hp : (h1.hint == st.current_input ++ [c]) = true :=
        @List.find?_some _ (fun h => h.hint == st.current_input ++ [c]) h1 st.hints hfind
      have hm : h1 ∈ st.hints :=
        @List.mem_of_find?_eq_some _ (fun h => h.hint == st.current_input ++ [c]) h1
          st.hints hfind
      exact absurd (beq_iff_eq.mp hp) (hnone h1 hm)
  | none =>
    constructor
    · rintro ⟨h0, hm, he⟩
      have := List.find?_eq_none.mp hfind h0 hm
      exact absurd (beq_iff_eq.mpr he) this
    · intro _
      constructor
      · intro hall
        have hemp : (st.hints.filter
            (fun h => startsWith h.hint (st.current_input ++ [c]))).isEmpty = true := by
          rw [List.isEmpty_iff, List.filter_eq_nil_iff]
          intro a ha
          rw [hall a ha]
          exact Bool.false_ne_true
        rw [if_pos hemp]
        exact ⟨rfl, rfl, rfl⟩
      · rintro ⟨h0, hm, hs⟩
        have hne : ¬(st.hints.filter
            (fun h => startsWith h.hint (st.current_input ++ [c]))).isEmpty = true := by
          rw [List.isEmpty_iff]
          intro hnil
          have : h0 ∈ st.hints.filter
              (fun h => startsWith h.hint (st.current_input ++ [c])) :=
            List.mem_filter.mpr ⟨hm, hs⟩
          rw [hnil] at this
          exact List.not_mem_nil h0 this
        rw [if_neg hne]
        exact ⟨rfl, rfl, rfl, rfl,
          updateHintVisibility_eq_map (st.current_input ++ [c]) st.hints st.hintWindows hwin⟩

/-- C3 witness: the narrowing theorem at a concrete two-hint session with
labels "a" and "s" and the key code 97 ('a'): an exact match that activates
the first hint's widget. -/
theorem c3_narrowing_witness :
    keycodeToChar 97 = some 'a' ∧ hintChars.contains 'a' = true ∧
    (handleKey ⟨[⟨Target.widget 1, ['a']⟩, ⟨Target.widget 2, ['s']⟩], [true, true], []⟩
        97).activated = some (Target.widget 1) := by
  refine ⟨by decide, by decide, ?_⟩
  have h := c3_active_key_narrowing
    ⟨[⟨Target.widget 1, ['a']⟩, ⟨Target.widget 2, ['s']⟩], [true, true], []⟩ 97 'a'
    (by decide) (by decide) (by decide)
  have h2 := (h.1 ⟨⟨Target.widget 1, ['a']⟩, by decide, by decide⟩).1
  rw [h2]
  decide

/-- C6 counterexample: `show` does not empty the input buffer — with the
buffer holding 'a' before the call and one target found, the overlay is
left Active with the buffer still 'a', not empty. -/
theorem c6_counterexample_stale_buffer :
    showOverlay ⟨[], [], ['a']⟩ [Target.widget 0] =
      some ⟨⟨[⟨Target.widget 0, ['a']⟩], [true], ['a']⟩, none⟩ ∧
    (['a'] : List Char) ≠ [] := by decide

/-- C6 amended: `show` first clears the prior session's hints and hint
windows, and whenever at least one target is found (and the session is
small enough for the label generator) it leaves the overlay Active with one
freshly labelled hint and one visible window per target — but with the
input buffer unchanged from before the call (it is emptied by `hide`, not
by `show`), hence empty only if it was empty already. -/
theorem c6_show_clears_session_keeps_buffer (st : OverlayState) (widgets : List Target)
    (hne : widgets ≠ []) (hlen : widgets.length ≤ 3390) :
    ∃ hs : List Hint,
      showOverlay st widgets =
        some ⟨⟨hs, hs.map (fun _ => true), st.current_input⟩, none⟩ ∧
      hs.length = widgets.length := by
  obtain ⟨hs, hhs, hl⟩ := buildHints_total widgets 0 (by omega)
  refine ⟨hs, ?_, hl⟩
  unfold showOverlay
  rw [if_neg (by rw [List.isEmpty_iff]; exact hne), hhs]
  rfl

/-- C6 witness: the amended show theorem at a concrete call with an empty
prior buffer and one target. -/
theorem c6_show_witness :
    ([Target.widget 0] : List Target) ≠ [] ∧
    ([Target.widget 0] : List Target).length ≤ 3390 ∧
    ∃ hs : List Hint,
      showOverlay ⟨[⟨Target.widget 7, ['s']⟩], [true], []⟩ [Target.widget 0] =
        some ⟨⟨hs, hs.map (fun _ => true), []⟩, none⟩ ∧
      hs.length = 1 :=
  ⟨by decide, by decide,
    c6_show_clears_session_keeps_buffer ⟨[⟨Target.widget 7, ['s']⟩], [true], []⟩
      [Target.widget 0] (by decide) (by decide)⟩

/-- C10: in DEFAULT mode with no text-entry focus, `_get_key_string`
lowercases the printable keys (space excepted, it is special-cased), so an
uppercase key code triggers the same built-in command as its lowercase
counterpart ('F' and 'f' both enter all-hints mode, 'I' and 'i' input-hints
mode, '/' search mode); any key code that is not printable ASCII and is not
Escape, Return or Tab maps to the empty command string and, when the
application binding table does not handle the empty string, the event is
passed through unhandled. -/
theorem c10_lowercased_commands (bindings : String → Bool)
    (hb : bindings "" = false) :
    (∀ k : Nat, 65 ≤ k → k ≤ 90 → getKeyString k = getKeyString (k + 32)) ∧
    onCharHook VimMode.DEFAULT false bindings 70 = HookAction.showAllHints ∧
    onCharHook VimMode.DEFAULT false bindings 102 = HookAction.showAllHints ∧
    onCharHook VimMode.DEFAULT false bindings 73 = HookAction.showInputHints ∧
    onCharHook VimMode.DEFAULT false bindings 105 = HookAction.showInputHints ∧
    onCharHook VimMode.DEFAULT false bindings 47 = HookAction.enterSearchMode ∧
    (∀ k : Nat, k ≠ 27 → k ≠ 13 → k ≠ 9 → (k < 32 ∨ 126 < k) →
      getKeyString k = "" ∧
      onCharHook VimMode.DEFAULT false bindings k = HookAction.skip) := by
  refine ⟨?_, ?_, ?_, ?_, ?_, ?_, ?_⟩
  · intro k h1 h2
    interval_cases k <;> decide
  · simp [onCharHook, show getKeyString 70 = "f" from by decide]
  · simp [onCharHook, show getKeyString 102 = "f" from by decide]
  · simp [onCharHook, show getKeyString 73 = "i" from by decide]
  · simp [onCharHook, show getKeyString 105 = "i" from by decide]
  · simp [onCharHook, show getKeyString 47 = "/" from by decide]
  · intro k h27 h13 h9 hrange
    have hks : getKeyString k = "" := by
      unfold getKeyString
      rw [if_neg h27, if_neg h13, if_neg h9, if_neg (by omega), if_neg (by omega),
        if_neg (by omega)]
    refine ⟨hks, ?_⟩
    unfold onCharHook
    rw [if_neg h27, if_neg (by decide), if_neg (by decide), if_neg (by decide), hks,
      if_neg (by decide), if_neg (by decide), if_neg (by decide), hb]
    rfl

/-- C10 witness: the lowercasing theorem with the empty binding table, at
the concrete key codes 70 ('F', all-hints) and 340 (a function key: empty
command string, passed through). -/
theorem c10_lowercased_witness :
    ((fun _ : String => false) "" = false) ∧
    onCharHook VimMode.DEFAULT false (fun _ => false) 70 = HookAction.showAllHints ∧
    getKeyString 340 = "" ∧
    onCharHook VimMode.DEFAULT false (fun _ => false) 340 = HookAction.skip := by
  have h := c10_lowercased_commands (fun _ => false) rfl
  exact ⟨rfl, h.2.1,
    (h.2.2.2.2.2.2 340 (by decide) (by decide) (by decide) (by omega)).1,
    (h.2.2.2.2.2.2 340 (by decide) (by decide) (by decide) (by omega)).2⟩

end Supyx
